import Mathlib

/-!
Verification of the pixels container-lifecycle orchestrator.

The Go sources are shallowly embedded: Go strings become `List Char`
(`GoStr`), Go slices that distinguish nil from empty become
`Option (List _)`, Go maps become insertion-ordered association lists with
last-write-wins lookup, and functions with remote side effects return an
explicit trace of the operations they would perform next to their result.
Each embedded definition mirrors one Go function and keeps its name.
-/

namespace Pixels

/-- A Go string, modelled as its list of runes (Go `range` iterates runes). -/
abbrev GoStr := List Char

/-- Rune list of a Lean string literal; used to write `GoStr` constants. -/
def str (s : String) : GoStr := s.data

/-- Go `unicode.IsSpace` restricted to the Latin-1 range, which is the only
range the embedded code ever feeds it (ASCII command output). -/
def goIsSpace (c : Char) : Bool :=
  c = ' ' || c = '\t' || c = '\n' || c = '\u000b' || c = '\u000c' || c = '\r' ||
  c = '\u0085' || c = ' '

/-- Go `strings.TrimSpace`: drop leading and trailing whitespace. -/
def trimSpace (s : GoStr) : GoStr :=
  ((s.dropWhile goIsSpace).reverse.dropWhile goIsSpace).reverse

/-- Go `strings.Split` with a one-rune separator (the only shape the code
uses: `"\n"` and `"\t"`). `goSplit sep "" = [""]`, like Go. -/
def goSplit (sep : Char) : GoStr → List GoStr
  | [] => [[]]
  | c :: rest =>
    match goSplit sep rest with
    | [] => [[c]]
    | h :: t => if c = sep then [] :: h :: t else (c :: h) :: t

/-- Go `strings.Join` with an arbitrary separator string. -/
def goJoin (sep : GoStr) : List GoStr → GoStr
  | [] => []
  | [x] => x
  | x :: rest => x ++ sep ++ goJoin sep rest

/-- Go `strings.Cut(s, sep)` for a one-rune separator: split at the first
occurrence, `none` when the separator does not occur. -/
def goCut (sep : Char) : GoStr → Option (GoStr × GoStr)
  | [] => none
  | c :: rest =>
    if c = sep then some ([], rest)
    else (goCut sep rest).map (fun p => (c :: p.1, p.2))

/-- Go map lookup over an insertion-ordered association list: a later binding
for the same key overrides an earlier one (`m[k] = v` semantics). -/
def goMapGet {β : Type} (m : List (GoStr × β)) (k : GoStr) : Option β :=
  (m.reverse.find? (fun p => p.1 = k)).map (fun p => p.2)

/- ### cmd: container naming (src/unnamed/part_001, lines 79-85) -/

/-- Go `containerPrefix` constant. -/
def containerPrefix : GoStr := str "px-"

/-- Go `containerName`: prepend the hard `px-` prefix. -/
def containerName (name : GoStr) : GoStr := containerPrefix ++ name

/-- Go `displayName`, via `strings.TrimPrefix`: drop the prefix when present,
otherwise return the input unchanged. -/
def displayName (name : GoStr) : GoStr :=
  if containerPrefix.isPrefixOf name then name.drop containerPrefix.length else name

/-- Claim C8: for every user-visible name `n`, `containerName n` is `"px-" ++ n`
and `displayName (containerName n) = n`: the round trip restores the name. -/
theorem containerName_displayName_roundtrip (n : GoStr) :
    containerName n = str "px-" ++ n ∧ displayName (containerName n) = n := by
  refine ⟨rfl, ?_⟩
  unfold displayName containerName
  rw [if_pos]
  · exact List.drop_left containerPrefix n
  · exact List.isPrefixOf_iff_prefix.mpr (List.prefix_append _ _)

/- ### truenas: ReplaceContainerRootfs (src/unnamed/part_013, lines 822-918) -/

/-- Go `isZFSPathChar`: true iff the rune is valid in a ZFS dataset or
snapshot path, i.e. in `[A-Za-z0-9/._@-]`. -/
def isZFSPathChar (r : Char) : Bool :=
  ('a' ≤ r && r ≤ 'z') || ('A' ≤ r && r ≤ 'Z') || ('0' ≤ r && r ≤ '9') ||
  r = '/' || r = '-' || r = '_' || r = '.' || r = '@'

/-- The shell command `ReplaceContainerRootfs` synthesizes by `fmt.Sprintf`
substitution of the destination dataset, the snapshot ID and the container
name. -/
def rcrCommand (dst snapshotID cname : GoStr) : GoStr :=
  str "/usr/sbin/zfs destroy -r " ++ dst ++ str " && /usr/sbin/zfs clone " ++
  snapshotID ++ str " " ++ dst ++
  str " && tmp=$(mktemp -d) && mount -t zfs " ++ dst ++ str " \"$tmp\"" ++
  str " && echo '" ++ cname ++ str "' > \"$tmp/rootfs/etc/hostname\"" ++
  str " && umount \"$tmp\" && rmdir \"$tmp\""

/-- One remote cron operation performed by `ReplaceContainerRootfs`. -/
inductive CronOp where
  | create (cmd : GoStr)
  | run
  | delete
deriving DecidableEq, Repr

/-- Result of `ReplaceContainerRootfs`. -/
inductive RCRResult where
  | configError
  | validationError (ch : Char) (path : GoStr)
  | createFailed
  | runFailed
  | ok
deriving DecidableEq, Repr

/-- Go `(*Client).ReplaceContainerRootfs`, with the remote world abstracted:
`gcfgDataset` is the dataset reported by the virt global config, and
`createOK` / `runOK` stand for the outcomes of `Cron.Create` and `Cron.Run`.
The second component is the trace of cron operations issued (the deferred
`Cron.Delete` runs on every exit path after a successful create). -/
def ReplaceContainerRootfs (gcfgDataset cname snapshotID : GoStr)
    (createOK runOK : Bool) : RCRResult × List CronOp :=
  if gcfgDataset = [] then (.configError, [])
  else
    let dstDataset := gcfgDataset ++ str "/containers/" ++ cname
    match dstDataset.find? (fun ch => !isZFSPathChar ch) with
    | some ch => (.validationError ch dstDataset, [])
    | none =>
      match snapshotID.find? (fun ch => !isZFSPathChar ch) with
      | some ch => (.validationError ch snapshotID, [])
      | none =>
        let cmd := rcrCommand dstDataset snapshotID cname
        if !createOK then (.createFailed, [])
        else if !runOK then (.runFailed, [.create cmd, .run, .delete])
        else (.ok, [.create cmd, .run, .delete])

/-- Claim C1: with a configured dataset, if every rune of the derived target
dataset path and of the snapshot ID lies in `[A-Za-z0-9/._@-]` the character
check passes (no validation error is produced); if any rune of either path
lies outside that set, `ReplaceContainerRootfs` stops with a validation error
having issued no cron operation at all — in particular no temporary cron job
exists and remote state is untouched.  `;`, `&`, `$`, backtick, newline and
space are all outside the set. -/
theorem replaceContainerRootfs_validates (gcfgDataset cname snapshotID : GoStr)
    (createOK runOK : Bool) (hds : gcfgDataset ≠ []) :
    ((∀ ch ∈ gcfgDataset ++ str "/containers/" ++ cname, isZFSPathChar ch) →
      (∀ ch ∈ snapshotID, isZFSPathChar ch) →
      ∀ ch p, (ReplaceContainerRootfs gcfgDataset cname snapshotID createOK runOK).1 ≠
        .validationError ch p) ∧
    ((∃ ch ∈ (gcfgDataset ++ str "/containers/" ++ cname) ++ snapshotID,
        ¬ isZFSPathChar ch) →
      (∃ ch p, (ReplaceContainerRootfs gcfgDataset cname snapshotID createOK runOK).1 =
        .validationError ch p) ∧
      (ReplaceContainerRootfs gcfgDataset cname snapshotID createOK runOK).2 = []) ∧
    (isZFSPathChar ';' = false ∧ isZFSPathChar '&' = false ∧
      isZFSPathChar '$' = false ∧ isZFSPathChar '`' = false ∧
      isZFSPathChar '\n' = false ∧ isZFSPathChar ' ' = false) := by
  unfold ReplaceContainerRootfs
  rw [if_neg hds]
  refine ⟨?_, ?_, by decide⟩
  · intro hdst hsnap ch p
    have h1 : (gcfgDataset ++ str "/containers/" ++ cname).find?
        (fun ch => !isZFSPathChar ch) = none := by
      rw [List.find?_eq_none]
      intro x hx
      simp [hdst x hx]
    have h2 : snapshotID.find? (fun ch => !isZFSPathChar ch) = none := by
      rw [List.find?_eq_none]
      intro x hx
      simp [hsnap x hx]
    simp only [h1, h2]
    cases createOK <;> cases runOK <;> simp
  · rintro ⟨ch, hch, hbad⟩
    rcases List.mem_append.mp hch with hmem | hmem
    · have hne : (gcfgDataset ++ str "/containers/" ++ cname).find?
          (fun ch => !isZFSPathChar ch) ≠ none := by
        rw [Ne, List.find?_eq_none]
        push_neg
        exact ⟨ch, hmem, by simpa using hbad⟩
      rcases Option.ne_none_iff_exists'.mp hne with ⟨bad, hbadfind⟩
      simp only [hbadfind]
      exact ⟨⟨bad, _, rfl⟩, trivial⟩
    · cases hfst : (gcfgDataset ++ str "/containers/" ++ cname).find?
          (fun ch => !isZFSPathChar ch) with
      | some bad =>
        simp only [hfst]
        exact ⟨⟨bad, _, rfl⟩, trivial⟩
      | none =>
        have hne : snapshotID.find? (fun ch => !isZFSPathChar ch) ≠ none := by
          rw [Ne, List.find?_eq_none]
          push_neg
          exact ⟨ch, hmem, by simpa using hbad⟩
        rcases Option.ne_none_iff_exists'.mp hne with ⟨bad, hbadfind⟩
        simp only [hfst, hbadfind]
        exact ⟨⟨bad, _, rfl⟩, trivial⟩

/-- Witness for C1 at concrete inputs: the clean snapshot ID
`tank/.ix-virt/containers/px-base@ready` passes the check, and the injection
probe `tank@x; rm -rf /` is rejected before any cron operation. -/
theorem replaceContainerRootfs_validates_witness :
    ((str "tank/.ix-virt") ≠ [] ∧
      (∀ ch p, (ReplaceContainerRootfs (str "tank/.ix-virt") (str "px-task1")
        (str "tank/.ix-virt/containers/px-base@ready") true true).1 ≠
        .validationError ch p)) ∧
    ((∃ ch p, (ReplaceContainerRootfs (str "tank/.ix-virt") (str "px-task1")
        (str "tank@x; rm -rf /") true true).1 = .validationError ch p) ∧
      (ReplaceContainerRootfs (str "tank/.ix-virt") (str "px-task1")
        (str "tank@x; rm -rf /") true true).2 = []) := by
  constructor
  · refine ⟨by decide, ?_⟩
    exact (replaceContainerRootfs_validates (str "tank/.ix-virt") (str "px-task1")
      (str "tank/.ix-virt/containers/px-base@ready") true true (by decide)).1
      (by decide) (by decide)
  · exact ((replaceContainerRootfs_validates (str "tank/.ix-virt") (str "px-task1")
      (str "tank@x; rm -rf /") true true (by decide)).2.1
      ⟨';', by decide, by decide⟩)

/- ### egress: presets and ResolveDomains (src/internal/egress/egress.go) -/

/-- A named egress preset: domain allowlist and CIDR ranges.  A `none` field
is a Go nil slice. -/
structure EgressPreset where
  Domains : Option (List GoStr)
  CIDRs : Option (List GoStr)

/-- Modelled from the spec: the preset table is decoded from `presets.toml`,
which is embedded into the binary at build time and absent from the source
tree.  Per the spec the `agent` preset lists AI-API hosts (it names
`api.anthropic.com`), language package registries, git hosts, a release CDN
and DNS, plus preset CIDRs.  Every theorem below about `ResolveDomains` is
independent of the concrete entries of this table. -/
def presets : List (GoStr × EgressPreset) :=
  [(str "agent",
    { Domains := some [str "api.anthropic.com", str "registry.npmjs.org",
        str "pypi.org", str "github.com", str "objects.githubusercontent.com",
        str "one.one.one.one"],
      CIDRs := some [str "185.199.108.0/22"] })]

/-- Go `PresetDomains`: the domain allowlist of a named preset, nil when the
preset does not exist. -/
def PresetDomains (name : GoStr) : Option (List GoStr) :=
  match presets.find? (fun p => p.1 = name) with
  | some p => p.2.Domains
  | none => none

/-- One iteration of the merge loop in `ResolveDomains`: append `d` unless it
was already appended.  The Go code keeps a `seen` map whose key set always
equals the content of `merged`, so membership in the accumulator is the same
test.  A `none` accumulator is the Go nil slice `merged` starts from. -/
def dedupAppend (acc : Option (List GoStr)) (d : GoStr) : Option (List GoStr) :=
  if d ∈ acc.getD [] then acc else some (acc.getD [] ++ [d])

/-- Go `ResolveDomains`: nil for `unrestricted`, the `allow` slice unchanged
for `allowlist`, and otherwise the preset domains followed by `allow`, merged
through the `seen` dedup loop. -/
def ResolveDomains (egress : GoStr) (allow : Option (List GoStr)) :
    Option (List GoStr) :=
  if egress = str "unrestricted" then none
  else if egress = str "allowlist" then allow
  else
    let merged := ((PresetDomains egress).getD []).foldl dedupAppend none
    (allow.getD []).foldl dedupAppend merged

/-- First-occurrence deduplication skipping an initial `seen` set, written
from the claim's words: preset first, extras second, already-seen skipped. -/
def firstDedupFrom (seen : List GoStr) : List GoStr → List GoStr
  | [] => []
  | d :: rest =>
    if d ∈ seen then firstDedupFrom seen rest
    else d :: firstDedupFrom (seen ++ [d]) rest

theorem foldl_dedupAppend_some (l : List GoStr) :
    ∀ s : List GoStr, l.foldl dedupAppend (some s) = some (s ++ firstDedupFrom s l) := by
  induction l with
  | nil => intro s; simp [firstDedupFrom]
  | cons d rest ih =>
    intro s
    by_cases hmem : d ∈ s
    · simp [List.foldl_cons, dedupAppend, hmem, firstDedupFrom, ih s]
    · simp only [List.foldl_cons, dedupAppend, Option.getD_some, if_neg hmem,
        firstDedupFrom, ih (s ++ [d])]
      simp [List.append_assoc]

theorem foldl_dedupAppend_none (l : List GoStr) :
    l.foldl dedupAppend none = match l with
      | [] => none
      | _ :: _ => some (firstDedupFrom [] l) := by
  cases l with
  | nil => rfl
  | cons d rest =>
    have h0 : dedupAppend none d = some [d] := by simp [dedupAppend]
    simp only [List.foldl_cons, h0, foldl_dedupAppend_some rest [d]]
    simp [firstDedupFrom]

theorem firstDedupFrom_nodup_disjoint (l : List GoStr) :
    ∀ seen : List GoStr,
      (firstDedupFrom seen l).Nodup ∧ ∀ x ∈ firstDedupFrom seen l, x ∉ seen := by
  induction l with
  | nil => intro seen; simp [firstDedupFrom]
  | cons d rest ih =>
    intro seen
    by_cases hmem : d ∈ seen
    · simpa [firstDedupFrom, hmem] using ih seen
    · have h := ih (seen ++ [d])
      refine ⟨?_, ?_⟩
      · simp only [firstDedupFrom, if_neg hmem, List.nodup_cons]
        refine ⟨fun hd => ?_, h.1⟩
        exact (h.2 d hd) (by simp)
      · intro x hx
        simp only [firstDedupFrom, if_neg hmem, List.mem_cons] at hx
        rcases hx with rfl | hx
        · exact hmem
        · intro hxs
          exact (h.2 x hx) (by simp [hxs])

/-- Counterexample to claim C2 as stated: in `allowlist` mode the extras are
returned unchanged, so `ResolveDomains "allowlist" ["a.com", "a.com"]`
contains a duplicate, and `ResolveDomains "allowlist" nil` is nil although
the mode is not `unrestricted`. -/
theorem resolveDomains_claim_counterexample :
    ResolveDomains (str "allowlist") (some [str "a.com", str "a.com"]) =
      some [str "a.com", str "a.com"] ∧
    ¬ (some [str "a.com", str "a.com"] : Option (List GoStr)).elim True
        (fun l => l.Nodup) ∧
    ResolveDomains (str "allowlist") none = none ∧
    str "allowlist" ≠ str "unrestricted" := by
  refine ⟨by decide, ?_, by decide, by decide⟩
  simp [List.Nodup]

/-- Claim C2 (amended): `ResolveDomains` is nil for `unrestricted`; in
`allowlist` mode it returns the extras slice unchanged (duplicates and
nil-ness included); in every other mode it is the first-occurrence
deduplication of the preset domains followed by the extras — duplicate-free,
preset order first, extras order second, already-seen entries skipped — and
is nil exactly when that merge is empty. -/
theorem resolveDomains_amended (allow : Option (List GoStr)) :
    ResolveDomains (str "unrestricted") allow = none ∧
    ResolveDomains (str "allowlist") allow = allow ∧
    ∀ mode : GoStr, mode ≠ str "unrestricted" → mode ≠ str "allowlist" →
      ((ResolveDomains mode allow).getD [] =
        firstDedupFrom [] ((PresetDomains mode).getD [] ++ allow.getD [])) ∧
      (ResolveDomains mode allow = none ↔
        (PresetDomains mode).getD [] ++ allow.getD [] = []) ∧
      ((ResolveDomains mode allow).getD []).Nodup := by
  refine ⟨by simp [ResolveDomains], by simp [ResolveDomains, str], ?_⟩
  intro mode h1 h2
  have hres : ResolveDomains mode allow =
      ((PresetDomains mode).getD [] ++ allow.getD []).foldl dedupAppend none := by
    simp [ResolveDomains, h1, h2, List.foldl_append]
  rw [hres, foldl_dedupAppend_none]
  cases hl : (PresetDomains mode).getD [] ++ allow.getD [] with
  | nil => simp [firstDedupFrom]
  | cons d rest =>
    refine ⟨rfl, by simp, ?_⟩
    simpa using (firstDedupFrom_nodup_disjoint (d :: rest) []).1

/-- Witness for the amended C2 at concrete inputs: agent mode with one new
and one duplicate extra merges preset-first with the duplicate skipped. -/
theorem resolveDomains_amended_witness :
    (ResolveDomains (str "agent")
        (some [str "x.dev", str "api.anthropic.com"])).getD [] =
      firstDedupFrom []
        ((PresetDomains (str "agent")).getD [] ++
          [str "x.dev", str "api.anthropic.com"]) ∧
    ((ResolveDomains (str "agent")
        (some [str "x.dev", str "api.anthropic.com"])).getD []).Nodup :=
  ⟨((resolveDomains_amended (some [str "x.dev", str "api.anthropic.com"])).2.2
      (str "agent") (by decide) (by decide)).1,
    ((resolveDomains_amended (some [str "x.dev", str "api.anthropic.com"])).2.2
      (str "agent") (by decide) (by decide)).2.2⟩

/- ### retry: Do (src/internal/retry/retry.go, lines 42-58) -/

/-- Outcome of `retry.Do`: success, the final attempt's error, or the
cancellation error observed during a between-attempt delay. -/
inductive DoResult where
  | success
  | failed (e : GoStr)
  | cancelled
deriving DecidableEq, Repr

/-- The loop body of `retry.Do`.  `fn j` is the error of attempt `j` (`none`
= success), `cancel j` says whether the context is cancelled during the delay
that precedes attempt `j`, `lastErr` and `i` are the loop state, and the
fuel argument is the number of remaining iterations.  Besides the result it
returns how many delays elapsed and how many times `fn` was invoked. -/
def DoLoop (cancel : Nat → Bool) (fn : Nat → Option GoStr)
    (lastErr : Option GoStr) (i : Nat) : Nat → DoResult × Nat × Nat
  | 0 => ((match lastErr with | none => .success | some e => .failed e), 0, 0)
  | r + 1 =>
    if 0 < i ∧ cancel i then (.cancelled, 0, 0)
    else
      let s := if 0 < i then 1 else 0
      match fn i with
      | none => (.success, s, 1)
      | some e =>
        let rest := DoLoop cancel fn (some e) (i + 1) r
        (rest.1, s + rest.2.1, 1 + rest.2.2)

/-- Go `retry.Do`: up to `attempts` calls, delay only between attempts. -/
def Do (attempts : Nat) (cancel : Nat → Bool) (fn : Nat → Option GoStr) :
    DoResult × Nat × Nat :=
  DoLoop cancel fn none 0 attempts

theorem DoLoop_succ_eq (cancel : Nat → Bool) (fn : Nat → Option GoStr)
    (lastErr : Option GoStr) (i r : Nat) :
    DoLoop cancel fn lastErr i (r + 1) =
      if 0 < i ∧ cancel i then (.cancelled, 0, 0)
      else
        match fn i with
        | none => (.success, if 0 < i then 1 else 0, 1)
        | some e =>
          ((DoLoop cancel fn (some e) (i + 1) r).1,
            (if 0 < i then 1 else 0) + (DoLoop cancel fn (some e) (i + 1) r).2.1,
            1 + (DoLoop cancel fn (some e) (i + 1) r).2.2) := by
  rw [DoLoop]

theorem DoLoop_all_fail (fn : Nat → Option GoStr) (e : Nat → GoStr) :
    ∀ (r i : Nat) (lastErr : Option GoStr), 0 < i →
      (∀ j, i ≤ j → j < i + (r + 1) → fn j = some (e j)) →
      DoLoop (fun _ => false) fn lastErr i (r + 1) =
        (.failed (e (i + r)), r + 1, r + 1) := by
  intro r
  induction r with
  | zero =>
    intro i lastErr hi hfn
    have h := hfn i le_rfl (by omega)
    simp [DoLoop, h, hi]
  | succ r ih =>
    intro i lastErr hi hfn
    have h := hfn i le_rfl (by omega)
    have hrest := ih (i + 1) (some (e i)) (by omega)
      (fun j h1 h2 => hfn j (by omega) (by omega))
    have hidx : i + 1 + r = i + (r + 1) := by omega
    rw [DoLoop_succ_eq]
    simp [hi, h, hrest, hidx]
    try omega

theorem DoLoop_success (fn : Nat → Option GoStr) :
    ∀ (m r i : Nat) (lastErr : Option GoStr), 0 < i → m < r →
      (∀ j, i ≤ j → j < i + m → fn j ≠ none) →
      fn (i + m) = none →
      DoLoop (fun _ => false) fn lastErr i r = (.success, m + 1, m + 1) := by
  intro m
  induction m with
  | zero =>
    intro r i lastErr hi hm hfail hsucc
    obtain ⟨r', rfl⟩ : ∃ r', r = r' + 1 := ⟨r - 1, by omega⟩
    simp only [Nat.add_zero] at hsucc
    simp [DoLoop, hsucc, hi]
  | succ m ih =>
    intro r i lastErr hi hm hfail hsucc
    obtain ⟨r', rfl⟩ : ∃ r', r = r' + 1 := ⟨r - 1, by omega⟩
    have hfi : fn i ≠ none := hfail i le_rfl (by omega)
    cases hfn : fn i with
    | none => exact absurd hfn hfi
    | some err =>
      have hrest := ih r' (i + 1) (some err) (by omega) (by omega)
        (fun j h1 h2 => hfail j (by omega) (by omega))
        (by rw [show i + 1 + m = i + (m + 1) by omega]; exact hsucc)
      rw [DoLoop_succ_eq]
      simp [hi, hfn, hrest]
      try omega

theorem DoLoop_cancelled (fn : Nat → Option GoStr) (cancel : Nat → Bool) :
    ∀ (m r i : Nat) (lastErr : Option GoStr), 0 < i → m < r →
      (∀ j, i ≤ j → j < i + m → fn j ≠ none) →
      (∀ j, i ≤ j → j < i + m → cancel j = false) →
      cancel (i + m) = true →
      DoLoop cancel fn lastErr i r = (.cancelled, m, m) := by
  intro m
  induction m with
  | zero =>
    intro r i lastErr hi hm hfail hnc hc
    obtain ⟨r', rfl⟩ : ∃ r', r = r' + 1 := ⟨r - 1, by omega⟩
    simp only [Nat.add_zero] at hc
    simp [DoLoop, hi, hc]
  | succ m ih =>
    intro r i lastErr hi hm hfail hnc hc
    obtain ⟨r', rfl⟩ : ∃ r', r = r' + 1 := ⟨r - 1, by omega⟩
    have hfi : fn i ≠ none := hfail i le_rfl (by omega)
    have hci : cancel i = false := hnc i le_rfl (by omega)
    cases hfn : fn i with
    | none => exact absurd hfn hfi
    | some err =>
      have hrest := ih r' (i + 1) (some err) (by omega) (by omega)
        (fun j h1 h2 => hfail j (by omega) (by omega))
        (fun j h1 h2 => hnc j (by omega) (by omega))
        (by rw [show i + 1 + m = i + (m + 1) by omega]; exact hc)
      rw [DoLoop_succ_eq]
      simp [hi, hci, hfn, hrest]
      try omega

/-- Claim C4: for `attempts = n ≥ 1`, `retry.Do` calls `fn` at most `n` times
and delays only between consecutive attempts — never before the first call
and never after the last.  When every attempt fails it performs exactly
`n - 1` delays and `n` calls and returns the final attempt's error; it
returns success as soon as an attempt succeeds (after `k` failures: `k`
delays, `k + 1` calls); and cancellation during the delay before attempt `k`
returns the cancellation error immediately, after `k - 1` delays and `k`
calls. -/
theorem retryDo_spec (n : Nat) (fn : Nat → Option GoStr) (e : Nat → GoStr)
    (hn : 1 ≤ n) :
    ((∀ i, i < n → fn i = some (e i)) →
      Do n (fun _ => false) fn = (.failed (e (n - 1)), n - 1, n)) ∧
    (∀ k, k < n → (∀ i, i < k → fn i ≠ none) → fn k = none →
      Do n (fun _ => false) fn = (.success, k, k + 1)) ∧
    (∀ (cancel : Nat → Bool) (k : Nat), 1 ≤ k → k < n →
      (∀ i, i < k → fn i ≠ none) →
      (∀ i, i < k → cancel i = false) → cancel k = true →
      Do n cancel fn = (.cancelled, k - 1, k)) := by
  obtain ⟨a, rfl⟩ : ∃ a, n = a + 1 := ⟨n - 1, by omega⟩
  refine ⟨?_, ?_, ?_⟩
  · intro hfn
    have h0 := hfn 0 (by omega)
    cases a with
    | zero => simp [Do, DoLoop, h0]
    | succ a' =>
      have hrest := DoLoop_all_fail fn e a' 1 (some (e 0)) (by omega)
        (fun j h1 h2 => hfn j (by omega))
      have hidx : 1 + a' = a' + 1 := by omega
      unfold Do
      rw [DoLoop_succ_eq]
      simp [h0, hrest, hidx]
      try omega
  · intro k hk hfail hsucc
    cases k with
    | zero =>
      unfold Do
      rw [DoLoop_succ_eq]
      simp [hsucc]
    | succ k' =>
      have hf0 : fn 0 ≠ none := hfail 0 (by omega)
      cases hfn0 : fn 0 with
      | none => exact absurd hfn0 hf0
      | some err =>
        have hrest := DoLoop_success fn k' a 1 (some err) (by omega) (by omega)
          (fun j h1 h2 => hfail j (by omega))
          (by rw [show 1 + k' = k' + 1 by omega]; exact hsucc)
        unfold Do
        rw [DoLoop_succ_eq]
        simp [hfn0, hrest]
        try omega
  · intro cancel k hk1 hk hfail hnc hc
    obtain ⟨k', rfl⟩ : ∃ k', k = k' + 1 := ⟨k - 1, by omega⟩
    have hf0 : fn 0 ≠ none := hfail 0 (by omega)
    cases hfn0 : fn 0 with
    | none => exact absurd hfn0 hf0
    | some err =>
      have hrest := DoLoop_cancelled fn cancel k' a 1 (some err) (by omega)
        (by omega)
        (fun j h1 h2 => hfail j (by omega))
        (fun j h1 h2 => hnc j (by omega))
        (by rw [show 1 + k' = k' + 1 by omega]; exact hc)
      unfold Do
      rw [DoLoop_succ_eq]
      simp [hfn0, hrest]
      try omega

/-- Witness for C4 at `n = 3`: all three attempts failing gives two delays,
three calls and the third error; success at attempt 1 gives one delay and two
calls; cancellation during the delay before attempt 2 gives one delay and two
calls. -/
theorem retryDo_spec_witness :
    Do 3 (fun _ => false) (fun _ => some (str "boom")) =
      (.failed (str "boom"), 2, 3) ∧
    Do 3 (fun _ => false) (fun i => if i = 0 then some (str "boom") else none) =
      (.success, 1, 2) ∧
    Do 3 (fun i => decide (i = 2)) (fun _ => some (str "boom")) =
      (.cancelled, 1, 2) := by
  refine ⟨?_, ?_, ?_⟩
  · exact (retryDo_spec 3 (fun _ => some (str "boom")) (fun _ => str "boom")
      (by norm_num)).1 (fun i _ => rfl)
  · exact (retryDo_spec 3 (fun i => if i = 0 then some (str "boom") else none)
      (fun _ => str "boom") (by norm_num)).2.1 1 (by norm_num)
      (by intro i hi
          have hi0 : i = 0 := by omega
          subst hi0
          simp)
      (by simp)
  · exact (retryDo_spec 3 (fun _ => some (str "boom")) (fun _ => str "boom")
      (by norm_num)).2.2 (fun i => decide (i = 2)) 2 (by norm_num) (by norm_num)
      (fun i hi => by simp)
      (by intro i hi
          interval_cases i <;> simp)
      (by simp)

/- ### ssh: argument construction (src/unnamed/part_016, lines 135-169) -/

/-- Go `ssh.ConnConfig`.  The `Env` map is modelled as an insertion-ordered
association list with distinct keys; `sshArgs` only ever iterates the key set
sorted, so the Go map's arbitrary iteration order is immaterial. -/
structure ConnConfig where
  Host : GoStr
  User : GoStr
  KeyPath : GoStr
  Env : List (GoStr × GoStr)

/-- Go `os.DevNull` on a POSIX platform. -/
def devNull : GoStr := str "/dev/null"

/-- Go `sort.Strings`: keys are distinct, so any lexicographic sort yields
the unique sorted permutation. -/
def sortStrings (l : List GoStr) : List GoStr :=
  List.insertionSort (fun a b : GoStr => a ≤ b) l

/-- The `strings.Builder` loop of `sshArgs`: write `k=v` for each key, with a
space before every pair except the first (the Bool is the is-first flag). -/
def writePairs (env : List (GoStr × GoStr)) : List GoStr → Bool → GoStr
  | [], _ => []
  | k :: rest, first =>
    (if first then [] else str " ") ++ k ++ str "=" ++
      (goMapGet env k).getD [] ++ writePairs env rest false

/-- Go `sshArgs`: base options, optional `-i <path>`, a single `SetEnv`
option when the env map is non-empty, and the final `user@host`. -/
def sshArgs (cc : ConnConfig) : List GoStr :=
  let args := [str "-o", str "StrictHostKeyChecking=no",
               str "-o", str "UserKnownHostsFile=" ++ devNull,
               str "-o", str "PasswordAuthentication=no",
               str "-o", str "LogLevel=ERROR"]
  let args := if cc.KeyPath ≠ [] then args ++ [str "-i", cc.KeyPath] else args
  let args := if cc.Env ≠ [] then
      args ++ [str "-o",
        str "SetEnv=" ++ writePairs cc.Env (sortStrings (cc.Env.map Prod.fst)) true]
    else args
  args ++ [cc.User ++ str "@" ++ cc.Host]

/-- The `SetEnv=` options of an argument vector: every argument that follows
a `-o` and starts with `SetEnv=`.  Used to state what `sshArgs` emits. -/
def setEnvOpts : List GoStr → List GoStr
  | a :: b :: rest =>
    (if a = str "-o" ∧ (str "SetEnv=").isPrefixOf b then [b] else []) ++
      setEnvOpts (b :: rest)
  | _ => []

theorem writePairs_false_eq (env : List (GoStr × GoStr)) (ks : List GoStr)
    (hks : ks ≠ []) :
    writePairs env ks false = str " " ++ writePairs env ks true := by
  cases ks with
  | nil => exact absurd rfl hks
  | cons k rest => simp [writePairs, List.append_assoc]

theorem writePairs_eq_goJoin (env : List (GoStr × GoStr)) (ks : List GoStr) :
    writePairs env ks true =
      goJoin (str " ") (ks.map (fun k => k ++ str "=" ++ (goMapGet env k).getD [])) := by
  induction ks with
  | nil => simp [writePairs, goJoin]
  | cons k rest ih =>
    cases rest with
    | nil => simp [writePairs, goJoin]
    | cons k2 rest2 =>
      rw [writePairs, writePairs_false_eq env (k2 :: rest2) (by simp), ih]
      simp [goJoin, List.append_assoc]

theorem setEnv_ne_dasho (j : GoStr) : ¬ (str "SetEnv=" ++ j = str "-o") := by
  intro h
  have := congrArg List.length h
  simp [str] at this

theorem setEnvOpts_skip (a b : GoStr) (rest : List GoStr)
    (h : ¬ (a = str "-o" ∧ (str "SetEnv=").isPrefixOf b)) :
    setEnvOpts (a :: b :: rest) = setEnvOpts (b :: rest) := by
  show (if a = str "-o" ∧ (str "SetEnv=").isPrefixOf b then [b] else []) ++
      setEnvOpts (b :: rest) = setEnvOpts (b :: rest)
  rw [if_neg h, List.nil_append]

theorem setEnvOpts_keep (b : GoStr) (rest : List GoStr)
    (h : (str "SetEnv=").isPrefixOf b) :
    setEnvOpts (str "-o" :: b :: rest) = b :: setEnvOpts (b :: rest) := by
  show (if str "-o" = str "-o" ∧ (str "SetEnv=").isPrefixOf b then [b] else []) ++
      setEnvOpts (b :: rest) = b :: setEnvOpts (b :: rest)
  rw [if_pos ⟨rfl, h⟩, List.singleton_append]

theorem setEnvOpts_single (a : GoStr) : setEnvOpts [a] = [] := rfl

theorem setEnv_pre (j : GoStr) :
    (str "SetEnv=").isPrefixOf (str "SetEnv=" ++ j) = true :=
  List.isPrefixOf_iff_prefix.mpr (List.prefix_append _ _)

/-- Claim C5: for every connection config whose key path is not the literal
`-o` (so the scan below is unambiguous) and whose env keys are distinct (a Go
map invariant): when `Env` is non-empty, `sshArgs cc` contains exactly one
`SetEnv=…` option and it holds all `K=V` pairs space-separated with the keys
in lexicographically sorted order; when `Env` is empty no `SetEnv` option
appears; and in all cases the final positional argument is `user@host`. -/
theorem sshArgs_setenv (cc : ConnConfig) (hk : cc.KeyPath ≠ str "-o")
    (_hnodup : (cc.Env.map Prod.fst).Nodup) :
    (cc.Env ≠ [] →
      setEnvOpts (sshArgs cc) =
        [str "SetEnv=" ++ goJoin (str " ")
          ((sortStrings (cc.Env.map Prod.fst)).map
            (fun k => k ++ str "=" ++ (goMapGet cc.Env k).getD []))] ∧
      List.Sorted (fun a b : GoStr => a ≤ b) (sortStrings (cc.Env.map Prod.fst)) ∧
      (sortStrings (cc.Env.map Prod.fst)).Perm (cc.Env.map Prod.fst)) ∧
    (cc.Env = [] → setEnvOpts (sshArgs cc) = []) ∧
    (sshArgs cc).getLast? = some (cc.User ++ str "@" ++ cc.Host) := by
  refine ⟨?_, ?_, ?_⟩
  · intro henv
    refine ⟨?_, List.sorted_insertionSort _ _, List.perm_insertionSort _ _⟩
    rw [← writePairs_eq_goJoin]
    unfold sshArgs
    simp only [ne_eq, if_pos henv]
    by_cases hkp : cc.KeyPath = []
    · rw [if_neg (by simp [hkp])]
      simp only [List.append_assoc, List.cons_append, List.nil_append]
      rw [setEnvOpts_skip _ _ _ (by decide), setEnvOpts_skip _ _ _ (by decide),
        setEnvOpts_skip _ _ _ (by decide), setEnvOpts_skip _ _ _ (by decide),
        setEnvOpts_skip _ _ _ (by decide), setEnvOpts_skip _ _ _ (by decide),
        setEnvOpts_skip _ _ _ (by decide), setEnvOpts_skip _ _ _ (by decide),
        setEnvOpts_keep _ _ (setEnv_pre _),
        setEnvOpts_skip _ _ _ (fun h => setEnv_ne_dasho _ h.1),
        setEnvOpts_single]
    · rw [if_pos hkp]
      simp only [List.append_assoc, List.cons_append, List.nil_append]
      rw [setEnvOpts_skip _ _ _ (by decide), setEnvOpts_skip _ _ _ (by decide),
        setEnvOpts_skip _ _ _ (by decide), setEnvOpts_skip _ _ _ (by decide),
        setEnvOpts_skip _ _ _ (by decide), setEnvOpts_skip _ _ _ (by decide),
        setEnvOpts_skip _ _ _ (by decide), setEnvOpts_skip _ _ _ (by decide),
        setEnvOpts_skip _ _ _ (fun h => absurd h.1 (by decide)),
        setEnvOpts_skip _ _ _ (fun h => absurd h.2 (by decide)),
        setEnvOpts_keep _ _ (setEnv_pre _),
        setEnvOpts_skip _ _ _ (fun h => setEnv_ne_dasho _ h.1),
        setEnvOpts_single]
  · intro henv
    unfold sshArgs
    simp only [ne_eq, henv, not_true_eq_false, if_false]
    by_cases hkp : cc.KeyPath = []
    · rw [if_neg (by simp [hkp])]
      simp only [List.append_assoc, List.cons_append, List.nil_append]
      rw [setEnvOpts_skip _ _ _ (by decide), setEnvOpts_skip _ _ _ (by decide),
        setEnvOpts_skip _ _ _ (by decide), setEnvOpts_skip _ _ _ (by decide),
        setEnvOpts_skip _ _ _ (by decide), setEnvOpts_skip _ _ _ (by decide),
        setEnvOpts_skip _ _ _ (by decide),
        setEnvOpts_skip _ _ _ (fun h => absurd h.1 (by decide)),
        setEnvOpts_single]
    · rw [if_pos hkp]
      simp only [List.append_assoc, List.cons_append, List.nil_append]
      rw [setEnvOpts_skip _ _ _ (by decide), setEnvOpts_skip _ _ _ (by decide),
        setEnvOpts_skip _ _ _ (by decide), setEnvOpts_skip _ _ _ (by decide),
        setEnvOpts_skip _ _ _ (by decide), setEnvOpts_skip _ _ _ (by decide),
        setEnvOpts_skip _ _ _ (by decide), setEnvOpts_skip _ _ _ (by decide),
        setEnvOpts_skip _ _ _ (fun h => absurd h.1 (by decide)),
        setEnvOpts_skip _ _ _ (fun h => hk h.1),
        setEnvOpts_single]
  · unfold sshArgs
    by_cases hkp : cc.KeyPath = [] <;> by_cases henv : cc.Env = [] <;>
      simp [hkp, henv, List.getLast?_concat]

/-- Witness for C5: a two-key env map given in unsorted order is emitted as a
single `SetEnv=A=1 B=2` option, and the last argument is `pixel@10.0.0.5`. -/
theorem sshArgs_setenv_witness :
    setEnvOpts (sshArgs ⟨str "10.0.0.5", str "pixel", str "/home/u/.ssh/id",
        [(str "B", str "2"), (str "A", str "1")]⟩) = [str "SetEnv=A=1 B=2"] ∧
    (sshArgs ⟨str "10.0.0.5", str "pixel", str "/home/u/.ssh/id",
        [(str "B", str "2"), (str "A", str "1")]⟩).getLast? =
      some (str "pixel@10.0.0.5") := by
  have h := sshArgs_setenv ⟨str "10.0.0.5", str "pixel", str "/home/u/.ssh/id",
    [(str "B", str "2"), (str "A", str "1")]⟩ (by decide) (by decide)
  refine ⟨?_, h.2.2⟩
  rw [(h.1 (by decide)).1]
  decide

/- ### provision: ParseSessions and PollStatus (src/internal/provision/provision.go, lines 213-276) -/

/-- Go `provision.Session`: one parsed `zmx list` record.  `EndedAt` and
`ExitCode` are empty while the step is still running. -/
structure Session where
  Name : GoStr
  EndedAt : GoStr
  ExitCode : GoStr
deriving DecidableEq, Repr

/-- The field loop of `ParseSessions`: split the line on tabs and keep every
`key=value` token, in order (the Go map assignment is last-write-wins, which
`goMapGet` reproduces on this list). -/
def parseFields (line : GoStr) : List (GoStr × GoStr) :=
  (goSplit '\t' line).filterMap (fun part => goCut '=' part)

/-- Go `fields[k]`: map lookup, zero value `""` when the key is absent. -/
def fieldsGet (fields : List (GoStr × GoStr)) (k : GoStr) : GoStr :=
  (goMapGet fields k).getD []

/-- The record built from one accepted (already trimmed) line. -/
def sessionOfLine (line : GoStr) : Session :=
  { Name := fieldsGet (parseFields line) (str "session_name"),
    EndedAt := fieldsGet (parseFields line) (str "task_ended_at"),
    ExitCode := fieldsGet (parseFields line) (str "task_exit_code") }

/-- Go `provision.ParseSessions`: one record per line whose trimmed text
starts with `session_name=`; every other line is skipped. -/
def ParseSessions (raw : GoStr) : List Session :=
  if raw = [] then []
  else
    (goSplit '\n' raw).filterMap (fun line0 =>
      let line := trimSpace line0
      if line = [] ∨ ¬ (str "session_name=").isPrefixOf line then none
      else some (sessionOfLine line))

theorem filterMap_guard (pre : GoStr) (hpre : pre ≠ []) (ls : List GoStr) :
    (ls.filterMap (fun line0 =>
      let line := trimSpace line0
      if line = [] ∨ ¬ pre.isPrefixOf line then none
      else some (sessionOfLine line))) =
    ((ls.map trimSpace).filter (fun l => pre.isPrefixOf l)).map sessionOfLine := by
  induction ls with
  | nil => rfl
  | cons l0 rest ih =>
    obtain ⟨c, pre', rfl⟩ : ∃ c pre', pre = c :: pre' := by
      cases pre with
      | nil => exact absurd rfl hpre
      | cons c pre' => exact ⟨c, pre', rfl⟩
    by_cases hempty : trimSpace l0 = []
    · have hnp : ¬ ((c :: pre').isPrefixOf (trimSpace l0) = true) := by
        rw [hempty]; simp [List.isPrefixOf]
      rw [List.filterMap_cons_none (by simp [hempty]),
        List.map_cons, List.filter_cons_of_neg hnp]
      exact ih
    · by_cases hp : (c :: pre').isPrefixOf (trimSpace l0) = true
      · have hf : (fun line0 =>
            let line := trimSpace line0
            if line = [] ∨ ¬ (c :: pre').isPrefixOf line = true then none
            else some (sessionOfLine line)) l0 =
              some (sessionOfLine (trimSpace l0)) := by
          simp [hempty, hp]
        simp only [List.filterMap_cons, hf]
        rw [List.map_cons, List.filter_cons_of_pos hp, List.map_cons, ih]
      · rw [List.filterMap_cons_none (by simp [hempty, hp]),
          List.map_cons, List.filter_cons_of_neg hp]
        exact ih

/-- Claim C9: `ParseSessions` yields exactly one record per line whose
trimmed text begins with `session_name=` (a line merely containing the token
elsewhere yields none), with `Name`/`EndedAt`/`ExitCode` taken from the
`session_name`/`task_ended_at`/`task_exit_code` tab-separated tokens, a later
duplicate key overriding an earlier one and an absent token yielding the
empty string; being a total function of the raw text, it never fails. -/
theorem parseSessions_spec (raw : GoStr) :
    ParseSessions raw =
      (((goSplit '\n' raw).map trimSpace).filter
        (fun l => (str "session_name=").isPrefixOf l)).map sessionOfLine ∧
    ParseSessions (str "session_name=a\ttask_ended_at=1\ttask_ended_at=2") =
      [{ Name := str "a", EndedAt := str "2", ExitCode := [] }] ∧
    ParseSessions (str "see session_name=a\ttask_ended_at=1") = [] := by
  refine ⟨?_, by decide, by decide⟩
  by_cases hraw : raw = []
  · subst hraw; decide
  · rw [ParseSessions, if_neg hraw]
    exact filterMap_guard (str "session_name=") (by decide) _

/-- The state map built by `PollStatus`: sessions whose name starts with
`px-`, keyed by name, a later record overriding an earlier one. -/
def stepState (sessions : List Session) : List (GoStr × Session) :=
  sessions.foldl
    (fun m s => if (str "px-").isPrefixOf s.Name then m ++ [(s.Name, s)] else m) []

/-- One iteration of the classification loop of `PollStatus`: the status text
for an expected name and whether it no longer counts against `allDone`. -/
def classifyName (state : List (GoStr × Session)) (n : GoStr) : GoStr × Bool :=
  match goMapGet state n with
  | none => (n ++ str " pending", false)
  | some s =>
    if s.EndedAt = [] then (n ++ str " running", false)
    else if s.ExitCode ≠ str "0" then
      (n ++ str " failed (exit " ++ s.ExitCode ++ str ")", true)
    else (n ++ str " done", true)

/-- The pure core of Go `(*Runner).PollStatus`, taking the raw `zmx list`
output that `r.List` returned (the `("", false)` early return on a transport
error is outside this embedding).  The Go loop accumulates `parts` and
`allDone` in one pass; mapping then joining/conjoining is the same
computation. -/
def PollStatus (names : List GoStr) (raw : GoStr) : GoStr × Bool :=
  let state := stepState (ParseSessions raw)
  (goJoin (str ", ") ((names.map (classifyName state)).map Prod.fst),
    (names.map (classifyName state)).all Prod.snd)

/-- Written from the claim's words (amended): the record an expected name
maps to — the latest parsed session whose name both starts with `px-` and
equals the expected name. -/
def pxSessionFor : List Session → GoStr → Option Session
  | [], _ => none
  | s :: rest, n =>
    match pxSessionFor rest n with
    | some x => some x
    | none =>
      if (str "px-").isPrefixOf s.Name ∧ s.Name = n then some s else none

theorem goMapGet_append_single {β : Type} (m : List (GoStr × β)) (k n : GoStr)
    (v : β) :
    goMapGet (m ++ [(k, v)]) n = if k = n then some v else goMapGet m n := by
  simp only [goMapGet, List.reverse_append, List.reverse_singleton,
    List.singleton_append, List.find?]
  by_cases hk : k = n
  · simp [hk]
  · simp [hk]

theorem stepState_foldl (sessions : List Session) :
    ∀ acc : List (GoStr × Session), ∀ n : GoStr,
      goMapGet (sessions.foldl
        (fun m s => if (str "px-").isPrefixOf s.Name then m ++ [(s.Name, s)] else m)
        acc) n =
      match pxSessionFor sessions n with
      | some s => some s
      | none => goMapGet acc n := by
  induction sessions with
  | nil => intro acc n; simp [pxSessionFor]
  | cons s rest ih =>
    intro acc n
    rw [List.foldl_cons]
    by_cases hpx : (str "px-").isPrefixOf s.Name
    · rw [if_pos hpx, ih]
      rw [goMapGet_append_single]
      rcases hrest : pxSessionFor rest n with _ | x
      · by_cases hname : s.Name = n
        · have hpx' : str "px-" <+: n := hname ▸ List.isPrefixOf_iff_prefix.mp hpx
          simp [pxSessionFor, hrest, hname, hpx']
        · simp [pxSessionFor, hrest, hpx, hname]
      · simp [pxSessionFor, hrest]
    · rw [if_neg hpx, ih]
      rcases hrest : pxSessionFor rest n with _ | x
      · simp [pxSessionFor, hrest, hpx]
      · simp [pxSessionFor, hrest]

theorem goMapGet_stepState (sessions : List Session) (n : GoStr) :
    goMapGet (stepState sessions) n = pxSessionFor sessions n := by
  rw [stepState, stepState_foldl]
  rcases h : pxSessionFor sessions n with _ | x <;> simp [goMapGet]

theorem classifyName_eq (sessions : List Session) (n : GoStr) :
    classifyName (stepState sessions) n =
      (match pxSessionFor sessions n with
        | none => (n ++ str " pending", false)
        | some s =>
          if s.EndedAt = [] then (n ++ str " running", false)
          else if s.ExitCode ≠ str "0" then
            (n ++ str " failed (exit " ++ s.ExitCode ++ str ")", true)
          else (n ++ str " done", true)) := by
  rw [classifyName, goMapGet_stepState]

/-- Counterexample to claim C3 as stated: the name `foo` maps to a parsed
session record with non-empty ended-at, yet `PollStatus` reports it
`pending` with `allDone = false`, because its state map only admits sessions
whose name starts with `px-`. -/
theorem pollStatus_claim_counterexample :
    (∀ n ∈ [str "foo"],
      ∃ s ∈ ParseSessions (str "session_name=foo\ttask_ended_at=100\ttask_exit_code=0"),
        s.Name = n ∧ s.EndedAt ≠ []) ∧
    (PollStatus [str "foo"]
      (str "session_name=foo\ttask_ended_at=100\ttask_exit_code=0")).2 = false ∧
    (PollStatus [str "foo"]
      (str "session_name=foo\ttask_ended_at=100\ttask_exit_code=0")).1 =
      str "foo pending" := by
  refine ⟨?_, by decide, by decide⟩
  decide

/-- Claim C3 (amended): `PollStatus names raw` returns `allDone = true` iff
every name in the list maps — among the parsed records whose name starts
with `px-`, a later record overriding an earlier one — to a session whose
ended-at is non-empty; a name with no matching px- record is reported
`pending`, one with empty ended-at `running`, one ended with exit code
different from `"0"` `failed (exit N)`, and one ended with exit code `"0"`
`done`. -/
theorem pollStatus_amended (names : List GoStr) (raw : GoStr) :
    ((PollStatus names raw).2 = true ↔
      ∀ n ∈ names, ∃ s, pxSessionFor (ParseSessions raw) n = some s ∧
        s.EndedAt ≠ []) ∧
    (PollStatus names raw).1 =
      goJoin (str ", ") (names.map (fun n =>
        match pxSessionFor (ParseSessions raw) n with
        | none => n ++ str " pending"
        | some s =>
          if s.EndedAt = [] then n ++ str " running"
          else if s.ExitCode ≠ str "0" then
            n ++ str " failed (exit " ++ s.ExitCode ++ str ")"
          else n ++ str " done")) := by
  constructor
  · rw [PollStatus]
    simp only [List.all_eq_true, List.mem_map, forall_exists_index, and_imp]
    constructor
    · intro h n hn
      have := h _ _ hn rfl
      rw [classifyName_eq] at this
      rcases hs : pxSessionFor (ParseSessions raw) n with _ | s
      · rw [hs] at this; simp at this
      · rw [hs] at this
        by_cases hend : s.EndedAt = []
        · simp [hend] at this
        · exact ⟨s, rfl, hend⟩
    · intro h p n hn hp
      subst hp
      rcases h n hn with ⟨s, hs, hend⟩
      rw [classifyName_eq, hs]
      by_cases hexit : s.ExitCode ≠ str "0" <;> simp [hend, hexit]
  · rw [PollStatus]
    simp only []
    congr 1
    rw [List.map_map]
    apply List.map_congr_left
    intro n hn
    rw [Function.comp_apply, classifyName_eq]
    rcases hs : pxSessionFor (ParseSessions raw) n with _ | s
    · rfl
    · by_cases hend : s.EndedAt = [] <;> by_cases hexit : s.ExitCode ≠ str "0" <;>
        simp [hend, hexit]

/-- Witness for the amended C3: a failed `px-devtools` step (ended, exit 1)
and a finished `px-egress` step yield `allDone = true` with the failure named
in the status text. -/
theorem pollStatus_amended_witness :
    (PollStatus [str "px-devtools", str "px-egress"]
      (str "session_name=px-devtools\ttask_ended_at=5\ttask_exit_code=1\nsession_name=px-egress\ttask_ended_at=7\ttask_exit_code=0")).2 =
      true ∧
    (PollStatus [str "px-devtools", str "px-egress"]
      (str "session_name=px-devtools\ttask_ended_at=5\ttask_exit_code=1\nsession_name=px-egress\ttask_ended_at=7\ttask_exit_code=0")).1 =
      str "px-devtools failed (exit 1), px-egress done" := by
  constructor
  · refine (pollStatus_amended [str "px-devtools", str "px-egress"] _).1.mpr ?_
    intro n hn
    rcases List.mem_cons.mp hn with rfl | hn
    · exact ⟨⟨str "px-devtools", str "5", str "1"⟩, by decide, by decide⟩
    · rcases List.mem_singleton.mp hn with rfl
      exact ⟨⟨str "px-egress", str "7", str "0"⟩, by decide, by decide⟩
  · rw [(pollStatus_amended [str "px-devtools", str "px-egress"] _).2]
    decide

/- ### cmd: network allow and deny (src/cmd/network.go, lines 185-281) -/

/-- A remote effect of `network allow` / `network deny` after the read of the
domains file: rewriting `/etc/pixels-egress-domains` or re-running the
resolve script. -/
inductive NetEffect where
  | writeDomains (content : GoStr)
  | runResolve
deriving DecidableEq, Repr

/-- Outcome of `runNetworkAllow` after the domains file was read. -/
inductive AllowResult where
  | alreadyAllowed
  | updated
deriving DecidableEq, Repr

/-- Outcome of `runNetworkDeny` after the domains file was read. -/
inductive DenyResult where
  | notFound
  | removed
deriving DecidableEq, Repr

/-- The read-modify-write core of Go `runNetworkAllow`: `fileOut` is the
`cat` output of the domains file.  The preceding `ensureEgressFiles` call is
idempotent and never alters an existing domains file, so it is outside this
embedding. -/
def runNetworkAllow (fileOut domain : GoStr) : AllowResult × List NetEffect :=
  let current := trimSpace fileOut
  let lines := goSplit '\n' current
  if lines.any (fun l => decide (trimSpace l = domain)) then (.alreadyAllowed, [])
  else
    let current1 := if current ≠ [] then current ++ str "\n" else current
    (.updated, [.writeDomains (current1 ++ domain ++ str "\n"), .runResolve])

/-- The read-modify-write core of Go `runNetworkDeny`.  The Go loop builds
`kept` and `found` in one pass; `filter` and `any` compute the same pair. -/
def runNetworkDeny (fileOut domain : GoStr) : DenyResult × List NetEffect :=
  let lines := goSplit '\n' (trimSpace fileOut)
  let kept := lines.filter (fun l => decide (trimSpace l ≠ domain))
  let found := lines.any (fun l => decide (trimSpace l = domain))
  if !found then (.notFound, [])
  else (.removed, [.writeDomains (goJoin (str "\n") kept ++ str "\n"), .runResolve])

/-- Claim C6: `network allow` of a domain already present in the domains
file (as a trimmed line of the trimmed `cat` output) is a no-op success — no
file write, no resolve-script rerun; `network deny` of a domain absent from
the file fails and performs no write and no rerun, leaving the file
unchanged. -/
theorem network_allow_deny_idempotent (fileOut domain : GoStr) :
    ((∃ l ∈ goSplit '\n' (trimSpace fileOut), trimSpace l = domain) →
      runNetworkAllow fileOut domain = (.alreadyAllowed, [])) ∧
    ((∀ l ∈ goSplit '\n' (trimSpace fileOut), trimSpace l ≠ domain) →
      runNetworkDeny fileOut domain = (.notFound, [])) := by
  constructor
  · intro h
    have hfound : (goSplit '\n' (trimSpace fileOut)).any
        (fun l => decide (trimSpace l = domain)) = true := by
      simp only [List.any_eq_true, decide_eq_true_eq]
      exact h
    simp [runNetworkAllow, hfound]
  · intro h
    have hfound : (goSplit '\n' (trimSpace fileOut)).any
        (fun l => decide (trimSpace l = domain)) = false := by
      simp only [List.any_eq_false, decide_eq_true_eq]
      exact h
    simp [runNetworkDeny, hfound]

/-- Witness for C6: allowing `a.com` over a file already listing it is a
no-op success, and denying the absent `c.com` fails without effects. -/
theorem network_allow_deny_idempotent_witness :
    runNetworkAllow (str "a.com\nb.com\n") (str "a.com") = (.alreadyAllowed, []) ∧
    runNetworkDeny (str "a.com\nb.com\n") (str "c.com") = (.notFound, []) :=
  ⟨(network_allow_deny_idempotent (str "a.com\nb.com\n") (str "a.com")).1
      ⟨str "a.com", by decide, by decide⟩,
    (network_allow_deny_idempotent (str "a.com\nb.com\n") (str "c.com")).2
      (by decide)⟩

/- ### cmd: cache fast path (src/cmd/console.go, src/unnamed/part_001 lines
230-261, src/cmd/network.go lines 60-91) -/

/-- `cache.Entry`.  The cache package body is not in the source tree; the
struct shape is taken from its callers: `create`/`console` store `IP` and
`Status`, and the keyed `console` revision additionally stores the local SSH
public key (`SSHPubKey`, zero value `""` elsewhere). -/
structure Entry where
  IP : GoStr
  Status : GoStr
  SSHPubKey : GoStr
deriving DecidableEq, Repr

/-- One alias of a `truenas.VirtInstance` (type `INET`/`ipv4`/other). -/
structure VirtAlias where
  AliasType : GoStr
  Address : GoStr
deriving DecidableEq, Repr

/-- The fields of `truenas.VirtInstance` the embedded commands consult. -/
structure VirtInstance where
  Status : GoStr
  Aliases : List VirtAlias
deriving DecidableEq, Repr

/-- Go `resolveIP` (src/unnamed/part_001, lines 87-94): the address of the
first alias whose type is `INET` or `ipv4`, else `""`. -/
def resolveIP (inst : VirtInstance) : GoStr :=
  match inst.Aliases.find?
      (fun a => decide (a.AliasType = str "INET") || decide (a.AliasType = str "ipv4")) with
  | some a => a.Address
  | none => []

/-- The cache fast-path condition shared by `runStatus`
(src/unnamed/part_001 line 235), `runConsole` (src/cmd/console.go line 30)
and `resolveNetworkContext` (src/cmd/network.go line 65): a cached entry with
non-empty IP and status `RUNNING`.  No fingerprint is consulted. -/
def cacheFastPath (cached : Option Entry) : Bool :=
  match cached with
  | some e => decide (e.IP ≠ []) && decide (e.Status = str "RUNNING")
  | none => false

/-- The fast-path condition of the keyed `runConsole` revision
(src/cmd/console.go line 129), which additionally compares the cached SSH
public key against the current local one. -/
def consoleFastPathKeyed (cached : Option Entry) (pubKey : GoStr) : Bool :=
  match cached with
  | some e => decide (e.IP ≠ []) && decide (e.Status = str "RUNNING") &&
      decide (e.SSHPubKey = pubKey)
  | none => false

/-- The IP-resolution phase shared by `runStatus` and
`resolveNetworkContext`: try the cache fast path; on a miss look the instance
up over RPC, demanding status `RUNNING` and a non-empty alias IP.  `rpc` is
the `GetInstance` answer (`none` = not found; connection errors are outside
this embedding).  The Bool in the result records whether the RPC was
consulted. -/
def resolvePixelIP (cached : Option Entry) (rpc : Option VirtInstance) :
    Except GoStr (GoStr × Bool) :=
  let ip : GoStr :=
    match cached with
    | some e => if e.IP ≠ [] ∧ e.Status = str "RUNNING" then e.IP else []
    | none => []
  if ip = [] then
    match rpc with
    | none => .error (str "not found")
    | some inst =>
      if inst.Status ≠ str "RUNNING" then .error (str "is not running")
      else if resolveIP inst = [] then .error (str "has no IP address")
      else .ok (resolveIP inst, true)
  else .ok (ip, false)

theorem cacheFastPath_iff (cached : Option Entry) :
    cacheFastPath cached = true ↔
      ∃ e, cached = some e ∧ e.IP ≠ [] ∧ e.Status = str "RUNNING" := by
  rcases cached with _ | e <;> simp [cacheFastPath]

theorem resolvePixelIP_fast (e : Entry) (rpc : Option VirtInstance)
    (h1 : e.IP ≠ []) (h2 : e.Status = str "RUNNING") :
    resolvePixelIP (some e) rpc = .ok (e.IP, false) := by
  simp [resolvePixelIP, h1, h2]

theorem resolvePixelIP_slow (cached : Option Entry) (rpc : Option VirtInstance)
    (h : cacheFastPath cached = false) :
    resolvePixelIP cached rpc =
      match rpc with
      | none => .error (str "not found")
      | some inst =>
        if inst.Status ≠ str "RUNNING" then .error (str "is not running")
        else if resolveIP inst = [] then .error (str "has no IP address")
        else .ok (resolveIP inst, true) := by
  rcases cached with _ | e
  · simp [resolvePixelIP]
  · have hc : ¬ (e.IP ≠ [] ∧ e.Status = str "RUNNING") := by
      intro hc
      rw [(cacheFastPath_iff (some e)).mpr ⟨e, rfl, hc⟩] at h
      simp at h
    simp only [resolvePixelIP, if_neg hc]
    simp

/-- Counterexample to claim C7 as stated: a cached entry with status
`RUNNING` and a non-empty IP whose stored key differs from the current local
one still takes the fast path — `resolvePixelIP` succeeds without consulting
the RPC at all (here `rpc = none`), contradicting the claim that the
fingerprint must equal the current key for the fast path to be used. -/
theorem fastpath_claim_counterexample :
    cacheFastPath (some ⟨str "10.0.0.5", str "RUNNING", str "ssh-ed25519 OLD"⟩) =
      true ∧
    resolvePixelIP (some ⟨str "10.0.0.5", str "RUNNING", str "ssh-ed25519 OLD"⟩)
      none = .ok (str "10.0.0.5", false) ∧
    str "ssh-ed25519 OLD" ≠ str "ssh-ed25519 NEW" := by
  refine ⟨by decide, ?_, by decide⟩
  exact resolvePixelIP_fast _ none (by decide) (by decide)

/-- Claim C7 (amended): the console/status/network fast path uses the cached
entry without any RPC lookup exactly when the entry has status `RUNNING` and
a non-empty IP — the fingerprint is not consulted by these commands (the
keyed `console` revision alone additionally requires the cached SSH public
key to equal the current one); whenever that condition fails, the instance
and IP are reconfirmed via RPC. -/
theorem fastpath_amended (cached : Option Entry) (rpc : Option VirtInstance)
    (pubKey : GoStr) :
    ((∃ ip, resolvePixelIP cached rpc = .ok (ip, false)) ↔
      ∃ e, cached = some e ∧ e.IP ≠ [] ∧ e.Status = str "RUNNING") ∧
    (cacheFastPath cached = false →
      ∀ ip b, resolvePixelIP cached rpc = .ok (ip, b) → b = true) ∧
    (consoleFastPathKeyed cached pubKey = true ↔
      ∃ e, cached = some e ∧ e.IP ≠ [] ∧ e.Status = str "RUNNING" ∧
        e.SSHPubKey = pubKey) := by
  have noFalse : cacheFastPath cached = false →
      ∀ ip b, resolvePixelIP cached rpc = .ok (ip, b) → b = true := by
    intro hf ip b hok
    rw [resolvePixelIP_slow cached rpc hf] at hok
    rcases rpc with _ | inst
    · exact absurd hok (by simp)
    · by_cases h1 : inst.Status ≠ str "RUNNING"
      · simp [h1] at hok
      · by_cases h2 : resolveIP inst = []
        · simp [h1, h2] at hok
        · simp [h1, h2] at hok
          exact hok.2
  refine ⟨?_, noFalse, ?_⟩
  · constructor
    · rintro ⟨ip, hip⟩
      by_cases hf : cacheFastPath cached = true
      · exact (cacheFastPath_iff cached).mp hf
      · have := noFalse (Bool.not_eq_true _ ▸ hf) ip false hip
        exact absurd this (by simp)
    · rintro ⟨e, rfl, hip, hst⟩
      exact ⟨e.IP, resolvePixelIP_fast e rpc hip hst⟩
  · rcases cached with _ | e
    · simp [consoleFastPathKeyed]
    · simp [consoleFastPathKeyed, and_assoc]

/-- Witness for C7 (amended): a cache miss resolves through the RPC record,
and the keyed fast-path condition holds for a matching stored key. -/
theorem fastpath_amended_witness :
    (∀ ip b, resolvePixelIP (none : Option Entry)
        (some ⟨str "RUNNING", [⟨str "INET", str "10.0.0.7"⟩]⟩) = .ok (ip, b) →
      b = true) ∧
    consoleFastPathKeyed
      (some ⟨str "10.0.0.5", str "RUNNING", str "ssh-ed25519 K"⟩)
      (str "ssh-ed25519 K") = true :=
  ⟨(fastpath_amended none (some ⟨str "RUNNING", [⟨str "INET", str "10.0.0.7"⟩]⟩)
      (str "ssh-ed25519 K")).2.1 rfl,
    (fastpath_amended
      (some ⟨str "10.0.0.5", str "RUNNING", str "ssh-ed25519 K"⟩) none
      (str "ssh-ed25519 K")).2.2.mpr
      ⟨⟨str "10.0.0.5", str "RUNNING", str "ssh-ed25519 K"⟩, rfl, by decide,
        rfl, rfl⟩⟩

/- ### cmd: create tail (src/unnamed/part_004, lines 278-299) -/

/-- An observable step of the post-instance phase of `runCreate`. -/
inductive CreateStep where
  | sshWait (ip : GoStr) (timeoutSec : Nat)
  | cachePut (name : GoStr) (e : Entry)
deriving DecidableEq, Repr

/-- The tail of Go `runCreate` from line 278: resolve the IP from the final
instance record, optionally wait for SSH (90s fresh, 30s clone), then cache
unconditionally.  `_sshReady` is the outcome of `ssh.WaitReady`; a timeout
only prints a warning, so the trace does not depend on it.  The stored entry
leaves `SSHPubKey` at its zero value, as this revision of `create` does. -/
def runCreateTail (name : GoStr) (inst : VirtInstance)
    (provisionEnabled skipProvision _sshReady : Bool) : List CreateStep :=
  let ip := resolveIP inst
  (if ip ≠ [] ∧ (provisionEnabled ∨ skipProvision) then
      [CreateStep.sshWait ip (if skipProvision then 30 else 90)]
    else []) ++
  [CreateStep.cachePut name ⟨ip, inst.Status, []⟩]

/-- Claim C10: every `create` that reaches the post-instance phase stores a
cache entry unconditionally — the cache put is the final step of the trace
for all provisioning flags and all SSH-wait outcomes, even when no IPv4
alias was resolved (`IP = ""`) — and an entry with an empty IP never
satisfies the fast-path condition used by console, exec, status and network
commands. -/
theorem create_always_caches (name pk : GoStr) (inst : VirtInstance)
    (pe sp ready : Bool) :
    (runCreateTail name inst pe sp ready).getLast? =
      some (.cachePut name ⟨resolveIP inst, inst.Status, []⟩) ∧
    runCreateTail name inst pe sp true = runCreateTail name inst pe sp false ∧
    (∀ e : Entry, e.IP = [] →
      cacheFastPath (some e) = false ∧
      consoleFastPathKeyed (some e) pk = false) ∧
    resolveIP ⟨str "RUNNING", []⟩ = [] := by
  refine ⟨?_, rfl, ?_, rfl⟩
  · rw [runCreateTail]
    exact List.getLast?_concat _
  · intro e he
    constructor
    · simp [cacheFastPath, he]
    · simp [consoleFastPathKeyed, he]

/-- Witness for C10: creating over an instance with no alias caches an
empty-IP `RUNNING` entry, which fails the fast-path test. -/
theorem create_always_caches_witness :
    (runCreateTail (str "mybox") ⟨str "RUNNING", []⟩ true false false).getLast? =
      some (.cachePut (str "mybox") ⟨[], str "RUNNING", []⟩) ∧
    cacheFastPath (some ⟨[], str "RUNNING", []⟩) = false := by
  have h := create_always_caches (str "mybox") (str "ssh-ed25519 K")
    ⟨str "RUNNING", []⟩ true false false
  exact ⟨h.1, (h.2.2.1 ⟨[], str "RUNNING", []⟩ rfl).1⟩

end Pixels
